import Mathlib

/-!
Shallow embedding of the QA-Agent backend (`src/qa_agent/src/backend.py`).

Strings are modelled as `List Char` (`Str`).  External collaborators
(file loaders, the text splitter, the LLM chain, the Chroma collection)
are modelled as explicit parameters or as an emitted operation trace, so
that the orchestration logic of `backend.py` itself — extension dispatch,
error skipping, id generation, reset-then-batched-write, sentinel error
values — is what the theorems are about.
-/

namespace QABackend

abbrev Str := List Char

/-- `os.path.basename`: the part of the path after the last `/`. -/
def basename (p : Str) : Str :=
  (p.reverse.takeWhile (fun c => c ≠ '/')).reverse

/-- The part of a component after its last dot (empty if no dot). -/
def afterLastDot (b : Str) : Str :=
  (b.reverse.takeWhile (fun c => c ≠ '.')).reverse

/-- `os.path.splitext(p)[1]`: the extension, including the leading dot.
Empty when the final component has no dot, or when every character
before the last dot is itself a dot (e.g. `.bashrc`, `..txt`). -/
def extOf (p : Str) : Str :=
  let b := basename p
  if ('.' ∈ b) then
    let tail := afterLastDot b
    let stem := b.take (b.length - tail.length - 1)
    if stem.all (fun c => c = '.') then [] else '.' :: tail
  else []

/-- `os.path.splitext(path)[1].lower()` as used at backend.py:61. -/
def lowerExt (p : Str) : Str :=
  (extOf p).map Char.toLower

/-- A langchain `Document`: page content plus a metadata dict, of which
only the `source` key is ever consulted by the backend. -/
structure Document where
  page_content : Str
  metadata : List (Str × Str)
deriving DecidableEq

/-- Python `dict` lookup returning `None` on a missing key. -/
def dictGet? (m : List (Str × Str)) (k : Str) : Option Str :=
  match m with
  | [] => none
  | (k', v) :: rest => if k' = k then some v else dictGet? rest k

/-- Python `dict.get(k, dflt)`. -/
def metaGet (m : List (Str × Str)) (k dflt : Str) : Str :=
  (dictGet? m k).getD dflt

/-- Outcomes of the external per-file loading calls made by
`ingest_documents` (backend.py:62-80).  `.md`/`.txt` go through a
langchain loader returning a document list; for `.json` the code reads
and re-serialises the file itself (the environment supplies the
`json.dumps` text); for `.html` the environment supplies the
`soup.get_text` extraction.  An `Except.error` models the loader call
raising. -/
structure FileEnv where
  loadMd : Str → Except Str (List Document)
  loadTxt : Str → Except Str (List Document)
  loadJson : Str → Except Str Str
  loadHtml : Str → Except Str Str

/-- The `try/except` of backend.py:60-82 around one branch body: a
normal result contributes its documents and no log line, a raised
exception contributes no documents and one `Error loading ...` line. -/
def caught (r : Except Str (List Document)) (path : Str) : List Document × List Str :=
  match r with
  | .ok ds => (ds, [])
  | .error e => ([], ["Error loading ".toList ++ path ++ ": ".toList ++ e])

/-- One iteration of the loading loop (backend.py:59-82): dispatch on the
lowered extension; a raising loader is caught and logged, contributing no
documents; an unrecognised extension matches no branch and contributes
neither documents nor a log line.  Returns (documents, log lines).  For
`.json` and `.html` the code itself wraps the extracted text in a
`Document` whose metadata carries the path as `source`. -/
def loadDocsFor (env : FileEnv) (path : Str) : List Document × List Str :=
  if lowerExt path = ".md".toList then
    caught (env.loadMd path) path
  else if lowerExt path = ".txt".toList then
    caught (env.loadTxt path) path
  else if lowerExt path = ".json".toList then
    caught ((env.loadJson path).map (fun s => [⟨s, [("source".toList, path)]⟩])) path
  else if lowerExt path = ".html".toList then
    caught ((env.loadHtml path).map (fun t => [⟨t, [("source".toList, path)]⟩])) path
  else ([], [])

/-- The `documents` list accumulated by the loading loop. -/
def documentsLoaded (env : FileEnv) (paths : List Str) : List Document :=
  paths.flatMap (fun p => (loadDocsFor env p).1)

/-- `RecursiveCharacterTextSplitter.split_documents` (backend.py:87-88):
the text of each document is split by the (external) splitter `sp` into
pieces, each piece becoming a document carrying its parent's metadata;
documents are processed in loader order. -/
def split_documents (sp : Str → List Str) (docs : List Document) : List Document :=
  docs.flatMap (fun d => (sp d.page_content).map (fun t => ⟨t, d.metadata⟩))

/-- Decimal representation of a natural number, as in Python's f-string. -/
def natToStr (n : Nat) : Str := (Nat.repr n).toList

/-- The id generated at backend.py:90 for the chunk at position `i` of the
enumerated chunk list: `doc_<basename(source)>_<i>` with `source` looked
up via `metadata.get('source', 'unknown')`. -/
def makeId (c : Document) (i : Nat) : Str :=
  "doc_".toList ++ basename (metaGet c.metadata "source".toList "unknown".toList)
    ++ "_".toList ++ natToStr i

/-- `enumerate` combined with a map, starting at index `i0`. -/
def enumMap (f : Nat → α → β) : Nat → List α → List β
  | _, [] => []
  | i, c :: rest => f i c :: enumMap f (i + 1) rest

/-- The `ids` list of backend.py:90. -/
def makeIds (chunks : List Document) : List Str :=
  enumMap (fun i c => makeId c i) 0 chunks

/-- A record persisted by `collection.add`: parallel slices of the `ids`,
`texts` and `metadatas` lists zipped into one value. -/
structure Entry where
  id : Str
  document : Str
  metadata : List (Str × Str)
deriving DecidableEq

/-- The entries `ingest_documents` hands to the collection, combining
backend.py:90-92 (the chunk at enumeration index `i` yields id
`makeId c i`, text `c.page_content` and metadata `c.metadata`). -/
def makeEntries (chunks : List Document) : List Entry :=
  enumMap (fun i c => ⟨makeId c i, c.page_content, c.metadata⟩) 0 chunks

/-- Operations `ingest_documents` performs on the Chroma collection, in
order: the reset (`collection.delete(where={})`), a batched
`collection.add`, and `time.sleep(seconds)`. -/
inductive Op where
  | clear
  | add (batch : List Entry)
  | sleep (seconds : Nat)
deriving DecidableEq

/-- The write loop of backend.py:102-106: slices of 5 entries, each
`add` followed by a 1-second sleep. -/
def addBatches (l : List Entry) : List Op :=
  match l with
  | [] => []
  | e :: rest =>
      Op.add ((e :: rest).take 5) :: Op.sleep 1 :: addBatches (rest.drop 4)
termination_by l.length
decreasing_by
  simp only [List.length_drop, List.length_cons]
  omega

/-- `KnowledgeBase.ingest_documents` (backend.py:48-108), parametrised by
the loading environment and the external text splitter.  Returns the
chunk count it reports and the trace of collection operations it
performs.  The reset is modelled as the collection honouring the delete;
the `try/except: pass` suppression of a failing delete concerns the
external store, not this control flow. -/
def ingest_documents (env : FileEnv) (sp : Str → List Str) (file_paths : List Str) :
    Nat × List Op :=
  let documents := documentsLoaded env file_paths
  if documents = [] then (0, [])
  else
    let chunks := split_documents sp documents
    let texts := chunks.map (fun c => c.page_content)
    let ops := if texts = ([] : List Str) then [] else Op.clear :: addBatches (makeEntries chunks)
    (chunks.length, ops)

/-- Effect of one operation on the collection's contents. -/
def applyOp (s : List Entry) : Op → List Entry
  | .clear => []
  | .add batch => s ++ batch
  | .sleep _ => s

/-- Replaying an operation trace against a collection state. -/
def applyOps (s : List Entry) (ops : List Op) : List Entry :=
  ops.foldl applyOp s

/-- The batches written by a trace, in order. -/
def writtenBatches (ops : List Op) : List (List Entry) :=
  ops.filterMap (fun op => match op with | .add b => some b | _ => none)

/-- Every `add` in the trace is immediately followed by a `sleep 1`
(hence between any two writes a 1-second pause occurs). -/
def addsPausedAfter : List Op → Bool
  | [] => true
  | .add _ :: .sleep 1 :: rest => addsPausedAfter rest
  | .add _ :: _ => false
  | _ :: rest => addsPausedAfter rest

/-- JSON values, the shape `JsonOutputParser` produces and
`generate_test_cases` returns. -/
inductive Json where
  | null
  | bool (b : Bool)
  | num (n : Int)
  | str (s : Str)
  | arr (items : List Json)
  | obj (fields : List (Str × Json))

/-- Result of `collection.query` as consumed at backend.py:159-161: a
dict with `documents` and `metadatas` lists holding one inner list per
query text. -/
structure QueryResult where
  documents : List (List Str)
  metadatas : List (List (List (Str × Str)))

/-- Python `lst[0]`, raising `IndexError` on an empty list. -/
def item0 : List α → Except Str α
  | [] => .error "IndexError: list index out of range".toList
  | x :: _ => .ok x

/-- Python `m['source']`, raising `KeyError` when absent (backend.py:161). -/
def sourceItem (m : List (Str × Str)) : Except Str Str :=
  match dictGet? m "source".toList with
  | some v => .ok v
  | none => .error "KeyError: source".toList

/-- The context block assembled at backend.py:163-165:
`--- Source: <basename> ---\n<doc>\n\n` per (doc, source) pair. -/
def buildContext (pairs : List (Str × Str)) : Str :=
  pairs.foldl
    (fun acc p =>
      acc ++ "--- Source: ".toList ++ basename p.2 ++ " ---\n".toList
        ++ p.1 ++ "\n\n".toList)
    []

/-- The error sentinel `[{"error": str(e)}]` of backend.py:194. -/
def errorSentinel (e : Str) : Json :=
  Json.arr [Json.obj [("error".toList, Json.str e)]]

/-- `QAAgent.generate_test_cases` (backend.py:148-194).  `queryOutcome`
models `self.kb.query(requirement)` (which may raise); `chain` models
`(prompt | llm | JsonOutputParser).invoke` on the assembled context and
requirement, yielding parsed JSON or raising.  Only the chain invocation
sits inside a `try`; everything before it propagates exceptions, which
the `Except` in the result type records. -/
def generate_test_cases (queryOutcome : Except Str QueryResult)
    (chain : Str → Str → Except Str Json) (requirement : Str) :
    Except Str Json :=
  match queryOutcome with
  | .error e => .error e
  | .ok context_results =>
    match item0 context_results.documents with
    | .error e => .error e
    | .ok context_docs =>
      match item0 context_results.metadatas with
      | .error e => .error e
      | .ok metas0 =>
        match metas0.mapM sourceItem with
        | .error e => .error e
        | .ok context_sources =>
          match chain (buildContext (context_docs.zip context_sources)) requirement with
          | .ok result => .ok result
          | .error e => .ok (errorSentinel e)

/-- `List.isPrefixOf` spelt out for `Str`. -/
def isPre : Str → Str → Bool
  | [], _ => true
  | _ :: _, [] => false
  | a :: ps, b :: ss => a = b && isPre ps ss

/-- Whether `pat` occurs as a contiguous substring. -/
def containsSub (pat : Str) : Str → Bool
  | [] => isPre pat []
  | c :: rest => isPre pat (c :: rest) || containsSub pat rest

/-- Python `s.replace(pat, rep)` for non-empty `pat`: scan left to
right, replacing each (non-overlapping) occurrence. -/
def pyReplace (pat rep : Str) (s : Str) : Str :=
  match s with
  | [] => []
  | c :: rest =>
      if isPre pat (c :: rest) && !pat.isEmpty then
        rep ++ pyReplace pat rep (rest.drop (pat.length - 1))
      else
        c :: pyReplace pat rep rest
termination_by s.length
decreasing_by
  · simp only [List.length_drop, List.length_cons]
    omega
  · simp

/-- The whitespace set of Python's `str.strip()` (ASCII part). -/
def pyIsSpace (c : Char) : Bool :=
  c = ' ' || c = '\t' || c = '\n' || c = '\x0d' || c = '\x0b' || c = '\x0c'

/-- Remove the maximal run of whitespace at the end of a string. -/
def stripRight (p : Char → Bool) : Str → Str
  | [] => []
  | c :: rest =>
      match stripRight p rest with
      | [] => if p c then [] else [c]
      | r => c :: r

/-- Python `s.strip()`. -/
def pyStrip (s : Str) : Str :=
  stripRight pyIsSpace (s.dropWhile pyIsSpace)

/-- `QAAgent.generate_selenium_script` (backend.py:196-245).  `chain`
models `(prompt | llm | StrOutputParser).invoke` on the page markup and
the serialised test case; on success the code strips markdown fences via
two `str.replace` calls and `strip()`, on failure it returns the
`# Error generating script:` sentinel string. -/
def generate_selenium_script (chain : Str → Json → Except Str Str)
    (test_case : Json) (html_content : Str) : Str :=
  match chain html_content test_case with
  | .ok result =>
      pyStrip (pyReplace "```".toList [] (pyReplace "```python".toList [] result))
  | .error e => "# Error generating script: ".toList ++ e

/-- Length of the maximal run of `b` at the head of a string. -/
def leadCount (b : Char) : Str → Nat
  | [] => 0
  | c :: rest => if c = b then leadCount b rest + 1 else 0

/-- The backtick character, written by code point. -/
def fenceChar : Char := Char.ofNat 96

/-- The five keys the prompt demands of each generated test case. -/
def requiredKeys : List Str :=
  ["Test_ID".toList, "Feature".toList, "Test_Scenario".toList,
   "Expected_Result".toList, "Grounded_In".toList]

/-- Whether a JSON value is an object carrying all five required keys. -/
def hasFiveKeys : Json → Bool
  | .obj fields => requiredKeys.all (fun k => fields.any (fun p => decide (p.1 = k)))
  | _ => false

/-- Whether a JSON value is an object whose only key is `error`. -/
def errorOnly : Json → Bool
  | .obj fields => decide (fields.map Prod.fst = ["error".toList])
  | _ => false

/-- The return shape claimed for `generate_test_cases`: a list whose
every element has the five required keys, or a single-element list whose
element has exactly the key `error`. -/
def claimedTestCaseShape : Json → Bool
  | .arr items =>
      items.all hasFiveKeys ||
        (match items with
         | [o] => errorOnly o
         | _ => false)
  | _ => false

/-- Modelled from the spec: ids built from the *per-document* sequence
index — each chunk numbered by its position within its own document's
chunk sequence — stated for comparison with the ids `ingest_documents`
actually builds (`makeIds`). -/
def specPerDocIds (sp : Str → List Str) (docs : List Document) : List Str :=
  docs.flatMap (fun d => enumMap (fun i t => makeId ⟨t, d.metadata⟩ i) 0 (sp d.page_content))

/-- A concrete loading environment for witnesses: two loadable `.txt`
files, every other load raising. -/
def envC : FileEnv where
  loadMd := fun _ => .error "md boom".toList
  loadTxt := fun p =>
    if p = "a.txt".toList then
      .ok [⟨"alpha".toList, [("source".toList, "a.txt".toList)]⟩]
    else if p = "b.txt".toList then
      .ok [⟨"beta".toList, [("source".toList, "b.txt".toList)]⟩]
    else .error "missing".toList
  loadJson := fun _ => .error "json boom".toList
  loadHtml := fun _ => .error "html boom".toList

/-- A splitter that keeps each document whole (what the real splitter
does to texts shorter than the 1000-character window). -/
def spOne : Str → List Str := fun t => [t]

/-- An entry standing for a chunk persisted by an earlier ingestion. -/
def oldEntry : Entry :=
  ⟨"doc_old.txt_0".toList, "old text".toList, [("source".toList, "old.txt".toList)]⟩

/-!
Helper lemmas about the embedded operations, followed by one theorem per
claim (each named in its doc comment), with witnesses at concrete inputs.
-/

theorem applyOps_clear (s : List Entry) (ops : List Op) :
    applyOps s (Op.clear :: ops) = applyOps [] ops := rfl

theorem addBatches_applyOps (n : Nat) :
    ∀ l : List Entry, l.length ≤ n → ∀ s, applyOps s (addBatches l) = s ++ l := by
  induction n with
  | zero =>
    intro l hl s
    match l with
    | [] => simp [addBatches, applyOps]
  | succ n ih =>
    intro l hl s
    match l with
    | [] => simp [addBatches, applyOps]
    | e :: rest =>
      rw [addBatches]
      show applyOps (applyOp (applyOp s (Op.add ((e :: rest).take 5))) (Op.sleep 1))
        (addBatches (rest.drop 4)) = s ++ (e :: rest)
      rw [ih (rest.drop 4) (by simp at hl ⊢; omega)]
      simp [applyOp, List.take_append_drop]

theorem writtenBatches_cons_add (b : List Entry) (ops : List Op) :
    writtenBatches (Op.add b :: ops) = b :: writtenBatches ops := rfl

theorem writtenBatches_addBatches (n : Nat) :
    ∀ l : List Entry, l.length ≤ n → (writtenBatches (addBatches l)).flatten = l := by
  induction n with
  | zero =>
    intro l hl
    match l with
    | [] => simp [addBatches, writtenBatches]
  | succ n ih =>
    intro l hl
    match l with
    | [] => simp [addBatches, writtenBatches]
    | e :: rest =>
      rw [addBatches]
      show ((e :: rest).take 5 :: writtenBatches (addBatches (rest.drop 4))).flatten = e :: rest
      rw [List.flatten_cons]
      rw [ih (rest.drop 4) (by simp at hl ⊢; omega)]
      simp [List.take_append_drop]

theorem writtenBatches_addBatches_sizes (n : Nat) :
    ∀ l : List Entry, l.length ≤ n →
      ∀ b ∈ writtenBatches (addBatches l), b ≠ [] ∧ b.length ≤ 5 := by
  induction n with
  | zero =>
    intro l hl b hb
    match l with
    | [] => simp [addBatches, writtenBatches] at hb
  | succ n ih =>
    intro l hl b hb
    match l with
    | [] => simp [addBatches, writtenBatches] at hb
    | e :: rest =>
      rw [addBatches] at hb
      rw [show writtenBatches (Op.add ((e :: rest).take 5) :: Op.sleep 1 :: addBatches (rest.drop 4))
            = (e :: rest).take 5 :: writtenBatches (addBatches (rest.drop 4)) from rfl] at hb
      rw [List.mem_cons] at hb
      rcases hb with hb | hb
      · subst hb
        constructor
        · simp
        · simp [List.length_take]
      · exact ih (rest.drop 4) (by simp at hl ⊢; omega) b hb

theorem addsPausedAfter_addBatches (n : Nat) :
    ∀ l : List Entry, l.length ≤ n → addsPausedAfter (addBatches l) = true := by
  induction n with
  | zero =>
    intro l hl
    match l with
    | [] => simp [addBatches, addsPausedAfter]
  | succ n ih =>
    intro l hl
    match l with
    | [] => simp [addBatches, addsPausedAfter]
    | e :: rest =>
      rw [addBatches]
      show addsPausedAfter (addBatches (rest.drop 4)) = true
      exact ih (rest.drop 4) (by simp at hl ⊢; omega)

theorem split_documents_nil (sp : Str → List Str) : split_documents sp [] = [] := rfl

theorem ingest_count (env : FileEnv) (sp : Str → List Str) (paths : List Str) :
    (ingest_documents env sp paths).1
      = (split_documents sp (documentsLoaded env paths)).length := by
  unfold ingest_documents
  by_cases h : documentsLoaded env paths = []
  · rw [if_pos h, h]
    rfl
  · rw [if_neg h]

theorem ingest_ops_of_ne (env : FileEnv) (sp : Str → List Str) (paths : List Str)
    (h : split_documents sp (documentsLoaded env paths) ≠ []) :
    (ingest_documents env sp paths).2
      = Op.clear :: addBatches (makeEntries (split_documents sp (documentsLoaded env paths))) := by
  unfold ingest_documents
  have hdocs : documentsLoaded env paths ≠ [] := by
    intro hd
    exact h (by rw [hd]; rfl)
  rw [if_neg hdocs]
  show (if (split_documents sp (documentsLoaded env paths)).map (fun c => c.page_content)
          = ([] : List Str) then ([] : List Op)
        else Op.clear :: addBatches (makeEntries (split_documents sp (documentsLoaded env paths))))
      = Op.clear :: addBatches (makeEntries (split_documents sp (documentsLoaded env paths)))
  have htexts :
      (split_documents sp (documentsLoaded env paths)).map (fun c => c.page_content)
        ≠ ([] : List Str) := by
    intro hm
    exact h (List.map_eq_nil_iff.mp hm)
  rw [if_neg htexts]

theorem ingest_of_no_docs (env : FileEnv) (sp : Str → List Str) (paths : List Str)
    (h : documentsLoaded env paths = []) :
    ingest_documents env sp paths = (0, []) := by
  unfold ingest_documents
  rw [if_pos h]

theorem ingest_ops_of_empty (env : FileEnv) (sp : Str → List Str) (paths : List Str)
    (h : split_documents sp (documentsLoaded env paths) = []) :
    (ingest_documents env sp paths).2 = [] := by
  unfold ingest_documents
  by_cases hd : documentsLoaded env paths = []
  · rw [if_pos hd]
  · rw [if_neg hd]
    show (if (split_documents sp (documentsLoaded env paths)).map (fun c => c.page_content)
            = ([] : List Str) then ([] : List Op)
          else Op.clear :: addBatches (makeEntries (split_documents sp (documentsLoaded env paths))))
        = []
    rw [if_pos (by rw [h]; rfl)]

theorem enumMap_map (g : β → γ) (f : Nat → α → β) :
    ∀ (i : Nat) (l : List α), (enumMap f i l).map g = enumMap (fun i c => g (f i c)) i l := by
  intro i l
  induction l generalizing i with
  | nil => rfl
  | cons c rest ih => simp [enumMap, ih]

theorem makeEntries_map_id (chunks : List Document) :
    (makeEntries chunks).map Entry.id = makeIds chunks := by
  unfold makeEntries makeIds
  rw [enumMap_map]

theorem documentsLoaded_cons (env : FileEnv) (p : Str) (rest : List Str) :
    documentsLoaded env (p :: rest) = (loadDocsFor env p).1 ++ documentsLoaded env rest := by
  simp [documentsLoaded]

theorem documentsLoaded_append (env : FileEnv) (xs ys : List Str) :
    documentsLoaded env (xs ++ ys) = documentsLoaded env xs ++ documentsLoaded env ys := by
  simp [documentsLoaded]

theorem caught_error_no_docs (r : Except Str (List Document)) (p : Str)
    (h : (caught r p).2 ≠ []) : (caught r p).1 = [] := by
  cases r with
  | ok ds => simp [caught] at h
  | error e => rfl

theorem loadDocsFor_fail_no_docs (env : FileEnv) (p : Str)
    (h : (loadDocsFor env p).2 ≠ []) : (loadDocsFor env p).1 = [] := by
  unfold loadDocsFor at h ⊢
  split_ifs at h ⊢ <;> first
    | exact caught_error_no_docs _ _ h
    | rfl

theorem loadDocsFor_unsupported (env : FileEnv) (p : Str)
    (h : lowerExt p ∉ [".md".toList, ".txt".toList, ".json".toList, ".html".toList]) :
    loadDocsFor env p = ([], []) := by
  simp only [List.mem_cons, List.mem_singleton, not_or] at h
  unfold loadDocsFor
  split_ifs with h1 h2 h3 h4 <;> simp_all

theorem documentsLoaded_all_empty (env : FileEnv) :
    ∀ paths : List Str, (∀ q ∈ paths, (loadDocsFor env q).1 = []) →
      documentsLoaded env paths = [] := by
  intro paths h
  induction paths with
  | nil => rfl
  | cons p rest ih =>
    rw [documentsLoaded_cons, h p (by simp)]
    simp only [List.nil_append]
    exact ih (fun q hq => h q (by simp [hq]))

theorem isPre_nil_left (s : Str) : isPre [] s = true := rfl

theorem isPre_nil_right (pat : Str) (h : isPre pat [] = true) : pat = [] := by
  cases pat with
  | nil => rfl
  | cons a ps => simp [isPre] at h

theorem isPre_self_append (p t : Str) : isPre p (p ++ t) = true := by
  induction p with
  | nil => rfl
  | cons a ps ih => simp [isPre, ih]

theorem leadCount_cons (b c : Char) (rest : Str) :
    leadCount b (c :: rest) = if c = b then leadCount b rest + 1 else 0 := rfl

theorem isPre_b (b c : Char) (rest : Str) :
    isPre [b] (c :: rest) = (decide (b = c) && isPre [] rest) := rfl

theorem isPre_bb (b c : Char) (rest : Str) :
    isPre [b, b] (c :: rest) = (decide (b = c) && isPre [b] rest) := rfl

theorem isPre_bbb (b c : Char) (rest : Str) :
    isPre [b, b, b] (c :: rest) = (decide (b = c) && isPre [b, b] rest) := rfl

theorem isPre_two_iff (b : Char) (t : Str) :
    isPre [b, b] t = true ↔ 2 ≤ leadCount b t := by
  match t with
  | [] => simp [isPre, leadCount]
  | [c] =>
      constructor
      · intro h
        rw [isPre_bb, Bool.and_eq_true] at h
        simp [isPre] at h
      · intro h
        rw [leadCount_cons] at h
        by_cases h1 : c = b
        · rw [if_pos h1] at h
          simp [leadCount] at h
        · rw [if_neg h1] at h
          omega
  | c :: d :: tt =>
      constructor
      · intro h
        rw [isPre_bb, Bool.and_eq_true] at h
        have h1 : b = c := of_decide_eq_true h.1
        have h2 : b = d := by
          have hr := h.2
          rw [isPre_b, Bool.and_eq_true] at hr
          exact of_decide_eq_true hr.1
        rw [leadCount_cons, if_pos h1.symm, leadCount_cons, if_pos h2.symm]
        omega
      · intro h
        rw [leadCount_cons] at h
        by_cases h1 : c = b
        · rw [if_pos h1, leadCount_cons] at h
          by_cases h2 : d = b
          · rw [isPre_bb, isPre_b]
            rw [decide_eq_true h1.symm, decide_eq_true h2.symm]
            rfl
          · rw [if_neg h2] at h
            omega
        · rw [if_neg h1] at h
          omega

theorem fenceLead (b : Char) (n : Nat) : ∀ s : Str, s.length ≤ n →
    leadCount b (pyReplace [b, b, b] [] s) ≤ 2 ∧
    (leadCount b s ≤ 2 → leadCount b (pyReplace [b, b, b] [] s) ≤ leadCount b s) := by
  induction n with
  | zero =>
    intro s h
    match s with
    | [] => simp [pyReplace, leadCount]
  | succ n ih =>
    intro s h
    match s with
    | [] => simp [pyReplace, leadCount]
    | c :: rest =>
      rw [pyReplace]
      by_cases hm : isPre [b, b, b] (c :: rest) = true
      · rw [if_pos (by simp [hm])]
        simp only [List.nil_append, List.length_cons, List.length_nil]
        have hrec := ih (rest.drop (3 - 1)) (by simp at h ⊢; omega)
        refine ⟨hrec.1, ?_⟩
        intro hle
        exfalso
        rw [isPre_bbb, Bool.and_eq_true] at hm
        have hc : c = b := (of_decide_eq_true hm.1).symm
        have h2 : 2 ≤ leadCount b rest := (isPre_two_iff b rest).mp hm.2
        rw [leadCount_cons, if_pos hc] at hle
        omega
      · rw [if_neg (by simp [hm])]
        have hrest := ih rest (by simp at h ⊢; omega)
        by_cases hc : c = b
        · have hbb : ¬ isPre [b, b] rest = true := by
            intro hbb
            exact hm (by rw [isPre_bbb, hbb, decide_eq_true hc.symm]; rfl)
          have hlow : leadCount b rest ≤ 1 := by
            have := (isPre_two_iff b rest).not.mp hbb
            omega
          have hmono := hrest.2 (by omega)
          rw [leadCount_cons, if_pos hc, leadCount_cons, if_pos hc]
          exact ⟨by omega, fun _ => by omega⟩
        · rw [leadCount_cons, if_neg hc, leadCount_cons, if_neg hc]
          exact ⟨by omega, fun _ => by omega⟩

theorem fenceGone (b : Char) (n : Nat) : ∀ s : Str, s.length ≤ n →
    containsSub [b, b, b] (pyReplace [b, b, b] [] s) = false := by
  induction n with
  | zero =>
    intro s h
    match s with
    | [] => simp [pyReplace, containsSub, isPre]
  | succ n ih =>
    intro s h
    match s with
    | [] => simp [pyReplace, containsSub, isPre]
    | c :: rest =>
      rw [pyReplace]
      by_cases hm : isPre [b, b, b] (c :: rest) = true
      · rw [if_pos (by simp [hm])]
        simp only [List.nil_append, List.length_cons, List.length_nil]
        exact ih (rest.drop (3 - 1)) (by simp at h ⊢; omega)
      · rw [if_neg (by simp [hm])]
        have hrest : containsSub [b, b, b] (pyReplace [b, b, b] [] rest) = false :=
          ih rest (by simp at h ⊢; omega)
        show (isPre [b, b, b] (c :: pyReplace [b, b, b] [] rest)
            || containsSub [b, b, b] (pyReplace [b, b, b] [] rest)) = false
        rw [hrest, Bool.or_false, isPre_bbb]
        by_cases hc : c = b
        · have hbb : ¬ isPre [b, b] rest = true := by
            intro hbb
            exact hm (by rw [isPre_bbb, hbb, decide_eq_true hc.symm]; rfl)
          have hlow : leadCount b rest ≤ 1 := by
            have := (isPre_two_iff b rest).not.mp hbb
            omega
          have hout : leadCount b (pyReplace [b, b, b] [] rest) ≤ 1 := by
            have := (fenceLead b rest.length rest le_rfl).2 (by omega)
            omega
          have hx : isPre [b, b] (pyReplace [b, b, b] [] rest) = false := by
            cases hb2 : isPre [b, b] (pyReplace [b, b, b] [] rest) with
            | false => rfl
            | true =>
              exfalso
              have := (isPre_two_iff b _).mp hb2
              omega
          rw [hx]
          simp
        · rw [decide_eq_false (fun h' => hc h'.symm)]
          rfl

theorem isPre_take (pat : Str) : ∀ (u : Str) (k : Nat),
    isPre pat (u.take k) = true → isPre pat u = true := by
  induction pat with
  | nil => intro u k _; rfl
  | cons a ps ih =>
    intro u k h
    match u, k with
    | [], _ => simpa using h
    | c :: u', 0 => simp [isPre] at h
    | c :: u', k' + 1 =>
      rw [List.take_succ_cons] at h
      rw [show isPre (a :: ps) (c :: u'.take k') = (decide (a = c) && isPre ps (u'.take k'))
            from rfl, Bool.and_eq_true] at h
      rw [show isPre (a :: ps) (c :: u') = (decide (a = c) && isPre ps u') from rfl,
        Bool.and_eq_true]
      exact ⟨h.1, ih u' k' h.2⟩

theorem containsSub_nil (pat : Str) : containsSub pat [] = isPre pat [] := rfl

theorem containsSub_cons (pat : Str) (c : Char) (rest : Str) :
    containsSub pat (c :: rest) = (isPre pat (c :: rest) || containsSub pat rest) := rfl

theorem containsSub_take (pat : Str) : ∀ (u : Str) (k : Nat),
    containsSub pat (u.take k) = true → containsSub pat u = true := by
  intro u
  induction u with
  | nil => intro k h; simpa using h
  | cons c u' ih =>
    intro k h
    match k with
    | 0 =>
      rw [List.take_zero, containsSub_nil] at h
      have : pat = [] := isPre_nil_right pat h
      subst this
      rfl
    | k' + 1 =>
      rw [List.take_succ_cons, containsSub_cons] at h
      rw [containsSub_cons]
      rcases Bool.or_eq_true_iff.mp h with h1 | h2
      · have := isPre_take pat (c :: u') (k' + 1) (by rw [List.take_succ_cons]; exact h1)
        rw [this]
        rfl
      · rw [ih k' h2, Bool.or_true]

theorem containsSub_dropWhile (pat : Str) (p : Char → Bool) : ∀ u : Str,
    containsSub pat (u.dropWhile p) = true → containsSub pat u = true := by
  intro u
  induction u with
  | nil => intro h; simpa using h
  | cons c u' ih =>
    intro h
    rw [List.dropWhile_cons] at h
    by_cases hp : p c = true
    · rw [if_pos hp] at h
      rw [containsSub_cons, ih h, Bool.or_true]
    · rw [if_neg hp] at h
      exact h

theorem stripRight_eq_take (p : Char → Bool) : ∀ u : Str, ∃ k, stripRight p u = u.take k := by
  intro u
  induction u with
  | nil => exact ⟨0, rfl⟩
  | cons c u' ih =>
    rcases ih with ⟨k, hk⟩
    rw [show stripRight p (c :: u')
          = (match stripRight p u' with
             | [] => if p c then [] else [c]
             | r => c :: r) from rfl]
    cases hs : stripRight p u' with
    | nil =>
      by_cases hp : p c = true
      · exact ⟨0, by simp [hp]⟩
      · exact ⟨1, by simp [hp]⟩
    | cons r rs =>
      refine ⟨k + 1, ?_⟩
      rw [List.take_succ_cons, ← hk, hs]

theorem containsSub_pyStrip (pat u : Str) (h : containsSub pat (pyStrip u) = true) :
    containsSub pat u = true := by
  unfold pyStrip at h
  rcases stripRight_eq_take pyIsSpace (u.dropWhile pyIsSpace) with ⟨k, hk⟩
  rw [hk] at h
  exact containsSub_dropWhile pat pyIsSpace u (containsSub_take pat _ k h)

theorem script_no_fence (b : Char) (s : Str) :
    containsSub [b, b, b] (pyStrip (pyReplace [b, b, b] [] s)) = false := by
  cases hx : containsSub [b, b, b] (pyStrip (pyReplace [b, b, b] [] s)) with
  | false => rfl
  | true =>
    exfalso
    have h1 := containsSub_pyStrip [b, b, b] (pyReplace [b, b, b] [] s) hx
    have h2 := fenceGone b s.length s le_rfl
    rw [h1] at h2
    simp at h2

/-- C1 (amended): when an ingestion produces at least one chunk, the
collection is cleared before the first write, so afterwards the
collection holds exactly the entries of this ingestion, whatever entries
(from prior ingestions or otherwise) it held before. -/
theorem ingest_reset_before_write (env : FileEnv) (sp : Str → List Str) (paths : List Str)
    (h : split_documents sp (documentsLoaded env paths) ≠ []) :
    (ingest_documents env sp paths).2.head? = some Op.clear ∧
    ∀ s : List Entry, applyOps s (ingest_documents env sp paths).2
      = makeEntries (split_documents sp (documentsLoaded env paths)) := by
  rw [ingest_ops_of_ne env sp paths h]
  refine ⟨rfl, ?_⟩
  intro s
  rw [applyOps_clear]
  have := addBatches_applyOps (makeEntries (split_documents sp (documentsLoaded env paths))).length
    (makeEntries (split_documents sp (documentsLoaded env paths))) le_rfl []
  simpa using this

theorem ingest_reset_before_write_witness :
    split_documents spOne (documentsLoaded envC ["a.txt".toList]) ≠ [] ∧
    ((ingest_documents envC spOne ["a.txt".toList]).2.head? = some Op.clear ∧
     ∀ s : List Entry, applyOps s (ingest_documents envC spOne ["a.txt".toList]).2
       = makeEntries (split_documents spOne (documentsLoaded envC ["a.txt".toList]))) :=
  ⟨by decide, ingest_reset_before_write envC spOne ["a.txt".toList] (by decide)⟩

/-- C1 counterexample: a call to `ingest_documents` that produces zero
chunks (here: an empty file list) performs no clear at all, so an entry
persisted by a prior ingestion is still in the collection after the
later call — refuting the claim that the collection is cleared on every
call so that prior ingestions' entries are never queryable afterwards. -/
theorem ingest_zero_chunks_no_clear :
    (ingest_documents envC spOne []).1 = 0 ∧
    (ingest_documents envC spOne []).2 = [] ∧
    applyOps [oldEntry] (ingest_documents envC spOne []).2 = [oldEntry] :=
  ⟨rfl, rfl, rfl⟩

/-- C2 (amended): each entry persisted by `ingest_documents` gets the id
`doc_<basename(source)>_<i>` where `i` is the chunk's position in the
single enumeration of the concatenated chunk list across all documents
of the ingestion — a global index, not a per-document one. -/
theorem ingest_ids_global_index (env : FileEnv) (sp : Str → List Str) (paths : List Str) :
    (makeEntries (split_documents sp (documentsLoaded env paths))).map Entry.id
      = enumMap (fun i c =>
          "doc_".toList ++ basename (metaGet c.metadata "source".toList "unknown".toList)
            ++ "_".toList ++ natToStr i) 0 (split_documents sp (documentsLoaded env paths)) := by
  rw [makeEntries_map_id]
  rfl

/-- C2 counterexample: ingesting two one-chunk documents `a.txt` and
`b.txt`, the second document's only chunk — per-document sequence index
0 — is persisted under id `doc_b.txt_1` (its global enumeration index),
not `doc_b.txt_0` as the per-document reading of the claim requires. -/
theorem ingest_ids_not_per_document :
    makeIds (split_documents spOne (documentsLoaded envC ["a.txt".toList, "b.txt".toList]))
      = ["doc_a.txt_0".toList, "doc_b.txt_1".toList] ∧
    specPerDocIds spOne (documentsLoaded envC ["a.txt".toList, "b.txt".toList])
      = ["doc_a.txt_0".toList, "doc_b.txt_0".toList] ∧
    makeIds (split_documents spOne (documentsLoaded envC ["a.txt".toList, "b.txt".toList]))
      ≠ specPerDocIds spOne (documentsLoaded envC ["a.txt".toList, "b.txt".toList]) :=
  ⟨by decide, by decide, by decide⟩

/-- C5: an individual file whose load raises is skipped — it contributes
no documents and the remaining files' documents are exactly those of the
list without it — and a run in which no file contributes documents
(including the empty file list) returns 0 chunks with an empty operation
trace, raising nothing. -/
theorem ingest_skips_load_failures (env : FileEnv) (sp : Str → List Str) :
    (∀ (p : Str) (xs ys : List Str), (loadDocsFor env p).2 ≠ [] →
        (loadDocsFor env p).1 = [] ∧
        documentsLoaded env (xs ++ p :: ys) = documentsLoaded env (xs ++ ys)) ∧
    (∀ paths : List Str, (∀ q ∈ paths, (loadDocsFor env q).1 = []) →
        ingest_documents env sp paths = (0, [])) := by
  constructor
  · intro p xs ys h
    have hd := loadDocsFor_fail_no_docs env p h
    refine ⟨hd, ?_⟩
    rw [documentsLoaded_append, documentsLoaded_append, documentsLoaded_cons, hd]
    simp
  · intro paths h
    exact ingest_of_no_docs env sp paths (documentsLoaded_all_empty env paths h)

theorem ingest_skips_load_failures_witness :
    ((loadDocsFor envC "c.txt".toList).2 ≠ [] ∧
      ((loadDocsFor envC "c.txt".toList).1 = [] ∧
       documentsLoaded envC ["a.txt".toList, "c.txt".toList]
         = documentsLoaded envC ["a.txt".toList])) ∧
    ingest_documents envC spOne [] = (0, []) :=
  ⟨⟨by decide,
    (ingest_skips_load_failures envC spOne).1 "c.txt".toList ["a.txt".toList] [] (by decide)⟩,
   (ingest_skips_load_failures envC spOne).2 [] (by intro q hq; simp at hq)⟩

/-- C6: `ingest_documents` reports the length of the full chunk list,
and when that list is non-empty its trace writes exactly the entry list
(every chunk once, in order), in non-empty batches of at most 5, each
write immediately followed by a 1-second sleep (so a 1-second pause
separates any two consecutive writes). -/
theorem ingest_write_trace (env : FileEnv) (sp : Str → List Str) (paths : List Str) :
    (ingest_documents env sp paths).1 = (split_documents sp (documentsLoaded env paths)).length ∧
    (split_documents sp (documentsLoaded env paths) ≠ [] →
      (writtenBatches (ingest_documents env sp paths).2).flatten
          = makeEntries (split_documents sp (documentsLoaded env paths)) ∧
      (∀ b ∈ writtenBatches (ingest_documents env sp paths).2, b ≠ [] ∧ b.length ≤ 5) ∧
      addsPausedAfter (ingest_documents env sp paths).2 = true) := by
  refine ⟨ingest_count env sp paths, ?_⟩
  intro h
  rw [ingest_ops_of_ne env sp paths h]
  refine ⟨?_, ?_, ?_⟩
  · show (writtenBatches (addBatches (makeEntries (split_documents sp (documentsLoaded env paths))))).flatten = _
    exact writtenBatches_addBatches _ _ le_rfl
  · intro b hb
    exact writtenBatches_addBatches_sizes
      (makeEntries (split_documents sp (documentsLoaded env paths))).length _ le_rfl b hb
  · show addsPausedAfter (addBatches (makeEntries (split_documents sp (documentsLoaded env paths)))) = true
    exact addsPausedAfter_addBatches _ _ le_rfl

theorem ingest_write_trace_witness :
    split_documents spOne (documentsLoaded envC ["a.txt".toList, "b.txt".toList]) ≠ [] ∧
    (writtenBatches (ingest_documents envC spOne ["a.txt".toList, "b.txt".toList]).2).flatten
      = makeEntries (split_documents spOne (documentsLoaded envC ["a.txt".toList, "b.txt".toList])) :=
  ⟨by decide, ((ingest_write_trace envC spOne ["a.txt".toList, "b.txt".toList]).2 (by decide)).1⟩

/-- C7: with the same environment and file list, both calls return the
same count (the length of the same chunk list).  When that chunk list is
empty neither call writes anything and the collection is untouched; when
it is non-empty, after the second call the collection holds exactly the
entries written by the second call — the first call's writes survive
only through the second call's identical rewrite, and the state after
the second call equals the state after the first. -/
theorem ingest_twice_idempotent (env : FileEnv) (sp : Str → List Str) (paths : List Str)
    (s₀ : List Entry) :
    (ingest_documents env sp paths).1 = (split_documents sp (documentsLoaded env paths)).length ∧
    (split_documents sp (documentsLoaded env paths) = [] →
        writtenBatches (ingest_documents env sp paths).2 = [] ∧
        applyOps s₀ (ingest_documents env sp paths).2 = s₀) ∧
    (split_documents sp (documentsLoaded env paths) ≠ [] →
        applyOps (applyOps s₀ (ingest_documents env sp paths).2) (ingest_documents env sp paths).2
          = makeEntries (split_documents sp (documentsLoaded env paths)) ∧
        applyOps (applyOps s₀ (ingest_documents env sp paths).2) (ingest_documents env sp paths).2
          = applyOps s₀ (ingest_documents env sp paths).2) := by
  refine ⟨ingest_count env sp paths, ?_, ?_⟩
  · intro h
    rw [ingest_ops_of_empty env sp paths h]
    exact ⟨rfl, rfl⟩
  · intro h
    rw [ingest_ops_of_ne env sp paths h]
    have happ : ∀ s : List Entry,
        applyOps s (Op.clear :: addBatches (makeEntries (split_documents sp (documentsLoaded env paths))))
          = makeEntries (split_documents sp (documentsLoaded env paths)) := by
      intro s
      rw [applyOps_clear]
      have := addBatches_applyOps (makeEntries (split_documents sp (documentsLoaded env paths))).length
        (makeEntries (split_documents sp (documentsLoaded env paths))) le_rfl []
      simpa using this
    simp only [happ]
    exact ⟨trivial, trivial⟩

theorem ingest_twice_idempotent_witness :
    split_documents spOne (documentsLoaded envC ["a.txt".toList, "b.txt".toList]) ≠ [] ∧
    applyOps (applyOps [oldEntry] (ingest_documents envC spOne ["a.txt".toList, "b.txt".toList]).2)
        (ingest_documents envC spOne ["a.txt".toList, "b.txt".toList]).2
      = makeEntries (split_documents spOne (documentsLoaded envC ["a.txt".toList, "b.txt".toList])) :=
  ⟨by decide,
   ((ingest_twice_idempotent envC spOne ["a.txt".toList, "b.txt".toList] [oldEntry]).2.2
     (by decide)).1⟩

/-- C9: a path whose lowered extension is none of `.md`, `.txt`,
`.json`, `.html` matches no loader branch: it contributes no documents
and, unlike a failing load, not even an error log line; a file list of
only such paths yields 0 chunks and an empty trace. -/
theorem unsupported_extension_skipped (env : FileEnv) (sp : Str → List Str) :
    (∀ p : Str,
        lowerExt p ∉ [".md".toList, ".txt".toList, ".json".toList, ".html".toList] →
        loadDocsFor env p = ([], [])) ∧
    (∀ paths : List Str,
        (∀ q ∈ paths,
          lowerExt q ∉ [".md".toList, ".txt".toList, ".json".toList, ".html".toList]) →
        ingest_documents env sp paths = (0, [])) := by
  constructor
  · exact fun p h => loadDocsFor_unsupported env p h
  · intro paths h
    apply ingest_of_no_docs
    apply documentsLoaded_all_empty
    intro q hq
    rw [loadDocsFor_unsupported env q (h q hq)]

theorem unsupported_extension_skipped_witness :
    (lowerExt "a.pdf".toList
        ∉ [".md".toList, ".txt".toList, ".json".toList, ".html".toList] ∧
      loadDocsFor envC "a.pdf".toList = ([], [])) ∧
    ingest_documents envC spOne ["a.pdf".toList] = (0, []) :=
  ⟨⟨by decide, (unsupported_extension_skipped envC spOne).1 "a.pdf".toList (by decide)⟩,
   (unsupported_extension_skipped envC spOne).2 ["a.pdf".toList]
     (by intro q hq; rw [List.mem_singleton] at hq; subst hq; decide)⟩

/-- C3 (amended): once retrieval and context assembly succeed,
`generate_test_cases` returns the `[[\x7berror: message\x7d]]` sentinel
exactly when the prompt-model-parse chain raises, and on success returns
the parsed model output verbatim — no schema validation is applied, so
the five required keys are not guaranteed. -/
theorem generate_test_cases_sentinel_or_verbatim (qr : QueryResult)
    (chain : Str → Str → Except Str Json) (requirement : Str)
    (docs0 : List Str) (metas0 : List (List (Str × Str))) (sources : List Str)
    (hd : item0 qr.documents = .ok docs0)
    (hm : item0 qr.metadatas = .ok metas0)
    (hs : metas0.mapM sourceItem = .ok sources) :
    generate_test_cases (.ok qr) chain requirement
      = match chain (buildContext (docs0.zip sources)) requirement with
        | .ok result => .ok result
        | .error e => .ok (errorSentinel e) := by
  simp only [generate_test_cases, hd, hm, hs]

theorem generate_test_cases_sentinel_witness :
    generate_test_cases (.ok ⟨[[]], [[]]⟩) (fun _ _ => .error "parse fail".toList) []
      = .ok (errorSentinel "parse fail".toList) ∧
    generate_test_cases (.ok ⟨[[]], [[]]⟩) (fun _ _ => .ok (Json.arr [])) []
      = .ok (Json.arr []) :=
  ⟨generate_test_cases_sentinel_or_verbatim ⟨[[]], [[]]⟩ _ [] [] [] [] rfl rfl rfl,
   generate_test_cases_sentinel_or_verbatim ⟨[[]], [[]]⟩ _ [] [] [] [] rfl rfl rfl⟩

/-- C3 counterexample: with a model whose response parses to
`[\x7b"foo": 1\x7d]`, `generate_test_cases` returns that list verbatim —
an output that neither gives every element the five required keys nor is
a single-element list whose element has exactly the key `error`,
refuting the claimed dichotomy. -/
theorem generate_test_cases_unvalidated_output :
    generate_test_cases (.ok ⟨[[]], [[]]⟩)
        (fun _ _ => .ok (Json.arr [Json.obj [("foo".toList, Json.num 1)]])) []
      = .ok (Json.arr [Json.obj [("foo".toList, Json.num 1)]]) ∧
    claimedTestCaseShape (Json.arr [Json.obj [("foo".toList, Json.num 1)]]) = false :=
  ⟨rfl, by decide⟩

/-- C4: on chain success the returned script contains no fence marker
substring at all (in particular none leading or trailing); on chain
failure the returned string starts with `# Error generating script:`
followed by the message — in neither case does the call raise. -/
theorem generate_selenium_script_clean (chain : Str → Json → Except Str Str)
    (test_case : Json) (html_content : Str) :
    (∀ s, chain html_content test_case = .ok s →
        containsSub "```".toList
          (generate_selenium_script chain test_case html_content) = false) ∧
    (∀ e, chain html_content test_case = .error e →
        isPre "# Error generating script:".toList
          (generate_selenium_script chain test_case html_content) = true) := by
  constructor
  · intro s hs
    unfold generate_selenium_script
    rw [hs]
    rw [show ("```".toList : Str) = [fenceChar, fenceChar, fenceChar] from by decide]
    exact script_no_fence fenceChar (pyReplace "```python".toList [] s)
  · intro e he
    unfold generate_selenium_script
    rw [he]
    show isPre "# Error generating script:".toList
      ("# Error generating script: ".toList ++ e) = true
    rw [show ("# Error generating script: ".toList : Str)
          = "# Error generating script:".toList ++ " ".toList from by decide]
    rw [List.append_assoc]
    exact isPre_self_append _ _

theorem generate_selenium_script_clean_witness :
    containsSub "```".toList
      (generate_selenium_script (fun _ _ => .ok "```python\nprint(1)\n```".toList)
        Json.null []) = false ∧
    isPre "# Error generating script:".toList
      (generate_selenium_script (fun _ _ => .error "boom".toList) Json.null []) = true :=
  ⟨(generate_selenium_script_clean _ Json.null []).1 _ rfl,
   (generate_selenium_script_clean _ Json.null []).2 _ rfl⟩

/-- C10: the sentinel of `generate_test_cases` covers only the chain
invocation.  A raising knowledge-base query propagates as-is, and a
retrieved chunk whose metadata lacks the `source` key raises `KeyError`
out of the function — in both cases for every chain, which is never
consulted. -/
theorem generate_test_cases_propagates_retrieval_errors
    (chain : Str → Str → Except Str Json) (requirement : Str) :
    (∀ e, generate_test_cases (.error e) chain requirement = .error e) ∧
    (∀ (qr : QueryResult) (docs0 : List Str) (metas0 : List (List (Str × Str))) (e : Str),
        item0 qr.documents = .ok docs0 → item0 qr.metadatas = .ok metas0 →
        metas0.mapM sourceItem = .error e →
        generate_test_cases (.ok qr) chain requirement = .error e) := by
  constructor
  · intro e
    rfl
  · intro qr docs0 metas0 e hd hm hs
    simp only [generate_test_cases, hd, hm, hs]

theorem generate_test_cases_propagates_witness :
    generate_test_cases (.error "kb down".toList) (fun _ _ => .ok Json.null) []
      = .error "kb down".toList ∧
    generate_test_cases (.ok ⟨[["text".toList]], [[[("src".toList, "x".toList)]]]⟩)
        (fun _ _ => .ok Json.null) []
      = .error "KeyError: source".toList :=
  ⟨(generate_test_cases_propagates_retrieval_errors (fun _ _ => .ok Json.null) []).1
      "kb down".toList,
   (generate_test_cases_propagates_retrieval_errors (fun _ _ => .ok Json.null) []).2
     ⟨[["text".toList]], [[[("src".toList, "x".toList)]]]⟩
     ["text".toList] [[("src".toList, "x".toList)]] "KeyError: source".toList
     rfl rfl rfl⟩

end QABackend
